import Mathlib

/-!
Shallow embedding of the step-execution engine of the `Test` class
(`src/packages/docs/src/check_public_api/JSBuilder.ts`, second compilation unit):
`runWithCancellation`, `runStep`, `doStepDelay`, `cancel`,
`liftToStructuredError`, and the null-browser accessors.

The asynchronous run is embedded as a deterministic trace-producing
interpreter.  Observer hook invocations, the step bodies, the inter-step
delay and the interceptor detach are recorded as an ordered event list.
Settings objects live in an explicit heap (`List (Nat × value)`) keyed by
allocation identity, so that reference equality of JS objects is the
equality of heap identifiers.  Cooperative cancellation via
`Promise.race([runStep, cancelToken.promise])` is embedded at step-boundary
granularity: `cancelAt = some k` means the cancellation token is resolved by
the time the post-race check of step index `k` runs (the resolution lands
after step `k-1`'s check — just before or during step `k`'s race).
`Promise.race` invokes `runStep` eagerly, so the raced step at the
cancellation point still executes: its hooks and body run detached from the
returning caller (non-preemptive abandonment).  The model serializes those
detached events at the abandonment point, before the cleanup the caller then
performs; steps after the abandoned one are never invoked.  Observer hooks
themselves are modelled as total (never throwing); the modelled sources of
exceptions are the driver-configuration block, the data feed, and the step
bodies.
-/

namespace Element

/-- Step kinds as consumed from `Step.ts`: a `ONCE` step runs only while
`iteration <= 1`. -/
inductive StepType where
  | NORMAL
  | ONCE
  deriving DecidableEq, Repr

/-- A raw JavaScript error value as inspected by `Test.liftToStructuredError`:
its `name`, `message`, `stack`, and whether it carries the
`_structured === 'yes'` marker. -/
structure JsError where
  name : String
  message : String
  stack : String
  isStructured : Bool
  deriving DecidableEq, Repr

/-- One authored step `{name, type, stepOptions, fn}`.  The body `fn` is
embedded by its outcome for this run: `none` when it completes normally,
`some e` when it throws the error `e`. -/
structure Step where
  name : String
  type : StepType
  stepOptions : List (String × Nat)
  body : Option JsError
  deriving DecidableEq, Repr

/-- The `_kind` tag of a structured error. -/
inductive ErrorKind where
  | assertion
  | alreadyStructured
  | empty
  deriving DecidableEq, Repr

/-- The structured error produced by `Test.liftToStructuredError`. -/
structure StructuredErrorV where
  kind : ErrorKind
  message : String
  stack : String
  original : JsError
  deriving DecidableEq, Repr

/-- JS `String.prototype.startsWith`, embedded over the character list. -/
def jsStartsWith (s p : String) : Bool :=
  s.data.take p.data.length == p.data

/-- Modelled from the spec: `StructuredError.copyStackFromOriginalError`
(defined in `utils/StructuredError`, which is not under `src/`) preserves the
original stack trace by copying it onto the structured wrapper. -/
def copyStackFromOriginalError (se : StructuredErrorV) : StructuredErrorV :=
  { se with stack := se.original.stack }

/-- Modelled from the spec: `StructuredError.wrapBareError` (in
`utils/StructuredError`, not under `src/`) wraps an unknown thrown value with
kind `empty` and no further detail extraction; the wrapper's own stack is
fresh (modelled as `""`). -/
def wrapBareError (error : JsError) : StructuredErrorV :=
  { kind := ErrorKind.empty, message := error.message, stack := "", original := error }

/-- `Test.liftToStructuredError` (JSBuilder.ts lines 433-446): classify by the
raw error's `name`; pass a value already marked `_structured === 'yes'` through;
otherwise wrap as a bare error. -/
def liftToStructuredError (error : JsError) : StructuredErrorV :=
  if jsStartsWith error.name "AssertionError" then
    copyStackFromOriginalError
      { kind := ErrorKind.assertion, message := error.message, stack := "", original := error }
  else if error.isStructured then
    { kind := ErrorKind.alreadyStructured, message := error.message,
      stack := error.stack, original := error }
  else
    wrapBareError error

/-- The observable events of one run, in order: run-level and step-level
observer hooks, step-body invocations, the inter-step delay, and the
interceptor detach.  Step events carry the 0-based index of the step in
`Test.steps` and the step name. -/
inductive Event where
  | beforeRun
  | beforeStep (i : Nat) (name : String)
  | stepBody (i : Nat) (name : String)
  | onStepPassed (i : Nat) (name : String)
  | onStepError (i : Nat) (name : String) (e : StructuredErrorV)
  | afterStep (i : Nat) (name : String)
  | stepDelay
  | detach
  | afterRun
  deriving DecidableEq, Repr

/-- The per-run data of `Test` that the engine reads: the base settings value
(`this.settings`, fixed during a run), `this.settings.stepDelay`, and the
ordered step list. -/
structure TestModel where
  settings : List (String × Nat)
  stepDelay : Int
  steps : List Step
  deriving DecidableEq, Repr

/-- Mutable run state: the `failed` flag, the settings-object heap (allocation
id, shallow key-value contents), the reference held by `this.settings`, the
reference held by `browser.settings`, the next fresh allocation id, and the
event trace so far. -/
structure RunState where
  failed : Bool
  heap : List (Nat × List (String × Nat))
  settingsRef : Nat
  browserSettings : Nat
  nextId : Nat
  events : List Event
  deriving DecidableEq, Repr

/-- Look a settings object up by reference in the heap. -/
def lookupHeap : List (Nat × List (String × Nat)) → Nat → Option (List (String × Nat))
  | [], _ => none
  | (r, v) :: rest, n => if r = n then some v else lookupHeap rest n

/-- Whether the override list carries the key `k`. -/
def overrideHas (ov : List (String × Nat)) (k : String) : Bool :=
  ov.any (fun kv => kv.1 == k)

/-- Shallow merge `{ ...base, ...ov }`: override keys replace base keys
wholesale; the result is a fresh value. -/
def shallowMerge (base ov : List (String × Nat)) : List (String × Nat) :=
  base.filter (fun kv => !(overrideHas ov kv.1)) ++ ov

/-- `get skipping` (JSBuilder.ts lines 246-248): mirrors `failed`. -/
def skipping (s : RunState) : Bool := s.failed

/-- `Test.doStepDelay` (lines 452-464): return immediately when skipping or
`stepDelay <= 0`; otherwise perform the inter-step delay (embedded as one
`stepDelay` event). -/
def doStepDelay (t : TestModel) (s : RunState) : RunState :=
  if skipping s || decide (t.stepDelay ≤ 0) then s
  else { s with events := s.events ++ [Event.stepDelay] }

/-- `Test.runStep` (lines 390-431): `beforeStep` hook; snapshot
`{ ...browser.settings }` (a fresh shallow copy); install the fresh merged
overlay `{ ...this.settings, ...step.stepOptions }`; run the body, catching
any thrown value; always restore the snapshot reference; then `onStepError`
(after classifying and setting `failed`) or `onStepPassed`; `afterStep`; and
the inter-step delay only when no error was caught. -/
def runStep (t : TestModel) (i : Nat) (st : Step) (s : RunState) : RunState :=
  let s1 := { s with events := s.events ++ [Event.beforeStep i st.name] }
  let originalRef := s1.nextId
  let origVal := (lookupHeap s1.heap s1.browserSettings).getD []
  let s2 := { s1 with heap := (originalRef, origVal) :: s1.heap, nextId := s1.nextId + 1 }
  let mergedRef := s2.nextId
  let baseVal := (lookupHeap s2.heap s2.settingsRef).getD []
  let s3 := { s2 with
    heap := (mergedRef, shallowMerge baseVal st.stepOptions) :: s2.heap,
    nextId := s2.nextId + 1,
    browserSettings := mergedRef }
  let s4 := { s3 with events := s3.events ++ [Event.stepBody i st.name] }
  let s5 := { s4 with browserSettings := originalRef }
  match st.body with
  | some e =>
    let s6 := { s5 with failed := true, events := s5.events ++ [Event.onStepError i st.name (liftToStructuredError e)] }
    { s6 with events := s6.events ++ [Event.afterStep i st.name] }
  | none =>
    let s6 := { s5 with events := s5.events ++ [Event.onStepPassed i st.name] }
    let s7 := { s6 with events := s6.events ++ [Event.afterStep i st.name] }
    doStepDelay t s7

/-- The ONCE-skip test of the step loop (lines 351-354):
`stepType === StepType.ONCE && iteration > 1`. -/
def stepSkipped (iteration : Nat) (st : Step) : Bool :=
  st.type == StepType.ONCE && decide (1 < iteration)

/-- Whether the cancellation token has been resolved by the time the
post-race check of step index `i` runs: `cancelAt = some k` resolves it
within step `k`'s race window — after step `k-1`'s check, just before or
during step `k`'s race. -/
def cancelRequestedAt (cancelAt : Option Nat) (i : Nat) : Bool :=
  match cancelAt with
  | none => false
  | some k => decide (k ≤ i)

/-- How the step loop of `runWithCancellation` was left. -/
inductive LoopExit where
  | completed
  | cancelled
  | stepFailed
  deriving DecidableEq, Repr

/-- The step loop of `Test.runWithCancellation` (lines 350-369): skip ONCE
steps on later iterations; race each remaining step against the cancellation
token.  `Promise.race` (line 358) invokes `this.runStep` eagerly, so the
raced step always executes — when the race settles on the cancellation token
the step keeps running detached, and its events are serialized here at the
abandonment point.  The post-race check (line 363) returns on observed
cancellation — before the failed check — and otherwise the loop throws
`Error('test failed')` when the step left `failed` set. -/
def runSteps (t : TestModel) (iteration : Nat) (cancelAt : Option Nat) :
    Nat → List Step → RunState → RunState × LoopExit
  | _, [], s => (s, LoopExit.completed)
  | i, st :: rest, s =>
    if stepSkipped iteration st then
      runSteps t iteration cancelAt (i + 1) rest s
    else if cancelRequestedAt cancelAt i then
      (runStep t i st s, LoopExit.cancelled)
    else if (runStep t i st s).failed then (runStep t i st s, LoopExit.stepFailed)
    else runSteps t iteration cancelAt (i + 1) rest (runStep t i st s)

/-- Result of one `runWithCancellation` call: the full event trace, the final
`failed` flag, and whether the call rejected (re-raised an error) rather than
returning normally. -/
structure RunResult where
  events : List Event
  failed : Bool
  threw : Bool
  deriving DecidableEq, Repr

/-- Run state at the start of `runWithCancellation`: `failed` reset, the base
settings object allocated at reference 0, `browser.settings` holding that same
reference, empty trace. -/
def initState (t : TestModel) : RunState :=
  { failed := false, heap := [(0, t.settings)], settingsRef := 0,
    browserSettings := 0, nextId := 1, events := [] }

/-- Run state of the main path once the driver configuration succeeded and
`before(run)` has fired. -/
def mainStart (t : TestModel) : RunState :=
  { initState t with events := [Event.beforeRun] }

/-- `Test.runWithCancellation` (lines 293-380).  `configThrows` embeds an
exception in the driver-configuration block at the top of the `try` (lines
330-336); `dataAvailable` is whether `testData.feed()` returns a record.  An
exception inside `try` is caught (`failed = true`) and re-raised; the
`finally` detaches the interceptor on every path; `after(run)` fires only
when the loop completed without failure or cancellation. -/
def runWithCancellation (t : TestModel) (iteration : Nat) (dataAvailable : Bool)
    (configThrows : Bool) (cancelAt : Option Nat) : RunResult :=
  let s0 := initState t
  if configThrows then
    { events := s0.events ++ [Event.detach], failed := true, threw := true }
  else
    let s1 := { s0 with events := s0.events ++ [Event.beforeRun] }
    if !dataAvailable then
      { events := s1.events ++ [Event.detach], failed := true, threw := true }
    else
      match runSteps t iteration cancelAt 0 t.steps s1 with
      | (s, LoopExit.completed) =>
        { events := s.events ++ [Event.detach, Event.afterRun], failed := s.failed, threw := false }
      | (s, LoopExit.cancelled) =>
        { events := s.events ++ [Event.detach], failed := s.failed, threw := false }
      | (s, LoopExit.stepFailed) =>
        { events := s.events ++ [Event.detach], failed := true, threw := true }

/-- State touched by `Test.cancel` (lines 275-278) together with the hook it
invokes: `testCancel` is registered by `runWithCancellation` (lines 306-308)
to call `testObserver.after(this)`, so `afterRunCalls` counts how many times
that registered after-hook has run; `tokenResolved` is the state of the
`CancellationToken` created by `run()`. -/
structure CancelModel where
  failed : Bool
  afterRunCalls : Nat
  tokenResolved : Bool
  deriving DecidableEq, Repr

/-- `Test.cancel` (lines 275-278): set `failed = true` and await
`this.testCancel()`, which invokes the registered after-hook once per call.
No code path touches the cancellation token. -/
def cancel (m : CancelModel) : CancelModel :=
  { m with failed := true, afterRunCalls := m.afterRunCalls + 1 }

/-- The part of the browser session the null-session accessors read. -/
structure BrowserModel where
  url : String
  screenshots : List String
  deriving DecidableEq, Repr

/-- `get currentURL` (lines 382-388): empty string when no browser session is
running. -/
def currentURL (runningBrowser : Option BrowserModel) : String :=
  match runningBrowser with
  | none => ""
  | some b => b.url

/-- `Test.fetchScreenshots` (lines 482-485): empty list when no browser
session is running. -/
def fetchScreenshots (runningBrowser : Option BrowserModel) : List String :=
  match runningBrowser with
  | none => []
  | some b => b.screenshots

/-- `Test.takeScreenshot` (lines 477-480), embedded by the driver actions it
performs: none when no browser session is running. -/
def takeScreenshot (runningBrowser : Option BrowserModel) : List String :=
  match runningBrowser with
  | none => []
  | some _ => ["takeScreenshot"]

/-- The step index an event is about, if any. -/
def evIndex : Event → Option Nat
  | Event.beforeStep i _ => some i
  | Event.stepBody i _ => some i
  | Event.onStepPassed i _ => some i
  | Event.onStepError i _ _ => some i
  | Event.afterStep i _ => some i
  | _ => none

/-- Whether an event is about step index `i`. -/
def touches (i : Nat) (ev : Event) : Bool :=
  match evIndex ev with
  | some j => decide (j = i)
  | none => false

/-- Whether an event is about some step index `≥ n`. -/
def touchesGe (n : Nat) (ev : Event) : Bool :=
  match evIndex ev with
  | some j => decide (n ≤ j)
  | none => false

/-- Whether an event is an `onStepPassed` hook call. -/
def isPassedEv : Event → Bool
  | Event.onStepPassed _ _ => true
  | _ => false

/-- Whether an event is the inter-step delay. -/
def isDelayEv : Event → Bool
  | Event.stepDelay => true
  | _ => false

/-- Whether an event is the interceptor detach. -/
def isDetachEv : Event → Bool
  | Event.detach => true
  | _ => false

/-- Whether an event is the run-level `after` hook call. -/
def isAfterRunEv : Event → Bool
  | Event.afterRun => true
  | _ => false

/-- The events `runStep` appends for step `st` at index `i` when entered with
`failed = fl` (proved below in `runStep_events`). -/
def runStepEvents (t : TestModel) (i : Nat) (st : Step) (fl : Bool) : List Event :=
  match st.body with
  | some e =>
    [Event.beforeStep i st.name, Event.stepBody i st.name,
     Event.onStepError i st.name (liftToStructuredError e), Event.afterStep i st.name]
  | none =>
    [Event.beforeStep i st.name, Event.stepBody i st.name,
     Event.onStepPassed i st.name, Event.afterStep i st.name]
    ++ (if fl || decide (t.stepDelay ≤ 0) then [] else [Event.stepDelay])

/-- The per-step hook sequence of an executed step `st` at index `i`:
`beforeStep`, the body, then exactly one of `onStepPassed` / `onStepError`,
then `afterStep`. -/
def hookShape (i : Nat) (st : Step) : List Event :=
  match st.body with
  | some e =>
    [Event.beforeStep i st.name, Event.stepBody i st.name,
     Event.onStepError i st.name (liftToStructuredError e), Event.afterStep i st.name]
  | none =>
    [Event.beforeStep i st.name, Event.stepBody i st.name,
     Event.onStepPassed i st.name, Event.afterStep i st.name]

/-- The state evolution of a segment of the step loop in which every
non-skipped step passes (used to position a run at a later step index). -/
def runPassing (t : TestModel) (iteration : Nat) : Nat → List Step → RunState → RunState
  | _, [], s => s
  | i, p :: pre, s =>
    if stepSkipped iteration p then runPassing t iteration (i + 1) pre s
    else runPassing t iteration (i + 1) pre (runStep t i p s)

/-- A plain `Error("assertion failed: x")`: its JS `name` is `"Error"`. -/
def errPlain : JsError :=
  { name := "Error", message := "assertion failed: x", stack := "stack-of-B", isStructured := false }

/-- An error whose `name` starts with `"AssertionError"`. -/
def errAssert : JsError :=
  { name := "AssertionError [ERR_ASSERTION]", message := "boom",
    stack := "orig-stack", isStructured := false }

/-- Concrete passing step `A`. -/
def stA : Step := { name := "A", type := StepType.NORMAL, stepOptions := [], body := none }

/-- Concrete step `B` throwing `Error("assertion failed: x")`. -/
def stB : Step := { name := "B", type := StepType.NORMAL, stepOptions := [], body := some errPlain }

/-- Concrete passing step `C`. -/
def stC : Step := { name := "C", type := StepType.NORMAL, stepOptions := [], body := none }

/-- Concrete passing ONCE step. -/
def stOnce : Step := { name := "O", type := StepType.ONCE, stepOptions := [], body := none }

/-- Concrete failing step `F`. -/
def stF : Step := { name := "F", type := StepType.NORMAL, stepOptions := [], body := some errPlain }

/-- Concrete three-step test `[A, B, C]` with no inter-step delay. -/
def tABC : TestModel := { settings := [], stepDelay := 0, steps := [stA, stB, stC] }

/-- Concrete test whose only step is a ONCE step. -/
def tOnce : TestModel := { settings := [], stepDelay := 0, steps := [stOnce] }

/-- Concrete test `[F, A]`: the first step fails. -/
def tFA : TestModel := { settings := [], stepDelay := 0, steps := [stF, stA] }

/-- Concrete test `[F, O]`: a failing step before a ONCE step. -/
def tFOnce : TestModel := { settings := [], stepDelay := 0, steps := [stF, stOnce] }

/-- Concrete test `[A, O]`: a passing step before a ONCE step. -/
def tAOnce : TestModel := { settings := [], stepDelay := 0, steps := [stA, stOnce] }

theorem doStepDelay_events (t : TestModel) (s : RunState) :
    (doStepDelay t s).events =
      s.events ++ (if s.failed || decide (t.stepDelay ≤ 0) then [] else [Event.stepDelay]) := by
  unfold doStepDelay skipping
  split <;> simp_all

theorem doStepDelay_failed (t : TestModel) (s : RunState) :
    (doStepDelay t s).failed = s.failed := by
  unfold doStepDelay
  split <;> rfl

theorem runStep_events (t : TestModel) (i : Nat) (st : Step) (s : RunState) :
    (runStep t i st s).events = s.events ++ runStepEvents t i st s.failed := by
  unfold runStep runStepEvents
  cases st.body with
  | some e => simp
  | none => simp [doStepDelay_events]

theorem runStep_failed (t : TestModel) (i : Nat) (st : Step) (s : RunState) :
    (runStep t i st s).failed = (s.failed || st.body.isSome) := by
  unfold runStep
  cases st.body with
  | some e => simp
  | none => simp [doStepDelay_failed]

theorem runStepEvents_filter_touches_self (t : TestModel) (i : Nat) (st : Step) (fl : Bool) :
    (runStepEvents t i st fl).filter (touches i) = hookShape i st := by
  unfold runStepEvents hookShape
  cases st.body with
  | some e => simp [touches, evIndex]
  | none =>
    rw [List.filter_append]
    split <;> simp [touches, evIndex]

theorem runStepEvents_filter_touches_ne (t : TestModel) (i j : Nat) (st : Step) (fl : Bool)
    (h : i ≠ j) : (runStepEvents t i st fl).filter (touches j) = [] := by
  unfold runStepEvents
  cases st.body with
  | some e => simp [touches, evIndex, h]
  | none =>
    rw [List.filter_append]
    split <;> simp [touches, evIndex, h]

theorem runStepEvents_filter_touchesGe (t : TestModel) (i n : Nat) (st : Step) (fl : Bool)
    (h : i < n) : (runStepEvents t i st fl).filter (touchesGe n) = [] := by
  have hn : ¬ (n ≤ i) := by omega
  unfold runStepEvents
  cases st.body with
  | some e => simp [touchesGe, evIndex, hn]
  | none =>
    rw [List.filter_append]
    split <;> simp [touchesGe, evIndex, hn]

theorem runStepEvents_filter_afterRun (t : TestModel) (i : Nat) (st : Step) (fl : Bool) :
    (runStepEvents t i st fl).filter isAfterRunEv = [] := by
  unfold runStepEvents
  cases st.body with
  | some e => simp [isAfterRunEv]
  | none =>
    rw [List.filter_append]
    split <;> simp [isAfterRunEv]

theorem runStepEvents_filter_detach (t : TestModel) (i : Nat) (st : Step) (fl : Bool) :
    (runStepEvents t i st fl).filter isDetachEv = [] := by
  unfold runStepEvents
  cases st.body with
  | some e => simp [isDetachEv]
  | none =>
    rw [List.filter_append]
    split <;> simp [isDetachEv]

/-- Events appended by the step loop at indices covered by the hypothesis all
vanish under `pred`, so the `pred`-filtered trace is unchanged by the loop. -/
theorem runSteps_filter (t : TestModel) (it : Nat) (cAt : Option Nat) (pred : Event → Bool)
    (rest : List Step) :
    ∀ (i : Nat) (s : RunState),
      (∀ j st fl, i ≤ j → j < i + rest.length → (runStepEvents t j st fl).filter pred = []) →
      ((runSteps t it cAt i rest s).1.events.filter pred) = s.events.filter pred := by
  induction rest with
  | nil => intro i s _; rfl
  | cons st rest ih =>
    intro i s h
    simp only [runSteps]
    split
    · exact ih (i + 1) s (fun j st' fl hj hlt => h j st' fl (by omega) (by simp; omega))
    · have hself := h i st s.failed (le_refl i) (by simp)
      split
      · rw [runStep_events, List.filter_append, hself, List.append_nil]
      · split
        · rw [runStep_events, List.filter_append, hself, List.append_nil]
        · rw [ih (i + 1) (runStep t i st s)
            (fun j st' fl hj hlt => h j st' fl (by omega) (by simp; omega))]
          rw [runStep_events, List.filter_append, hself, List.append_nil]

/-- A segment of the loop in which every non-skipped step passes advances the
run exactly as `runPassing` does. -/
theorem runSteps_passSegment (t : TestModel) (it : Nat) (cAt : Option Nat)
    (pre : List Step) :
    ∀ (rest : List Step) (i : Nat) (s : RunState),
      (∀ p ∈ pre, stepSkipped it p = true ∨ p.body = none) →
      s.failed = false →
      (∀ j, i ≤ j → j < i + pre.length → cancelRequestedAt cAt j = false) →
      runSteps t it cAt i (pre ++ rest) s
        = runSteps t it cAt (i + pre.length) rest (runPassing t it i pre s) := by
  induction pre with
  | nil => intro rest i s _ _ _; simp [runPassing]
  | cons p pre ih =>
    intro rest i s hp hf hc
    have hlen : i + (p :: pre).length = (i + 1) + pre.length := by simp; omega
    rw [hlen]
    simp only [List.cons_append, runSteps, runPassing]
    by_cases hsk : stepSkipped it p = true
    · rw [if_pos hsk, if_pos hsk]
      exact ih rest (i + 1) s (fun q hq => hp q (List.mem_cons_of_mem p hq)) hf
        (fun j hj hlt => hc j (by omega) (by simp; omega))
    · have hb : p.body = none := by
        rcases hp p (List.mem_cons_self p pre) with h | h
        · exact absurd h hsk
        · exact h
      have hcr : cancelRequestedAt cAt i = false := hc i (le_refl i) (by simp)
      have hnf : (runStep t i p s).failed = false := by
        rw [runStep_failed, hb, hf]; rfl
      rw [if_neg hsk, if_neg hsk, if_neg (by rw [hcr]; exact Bool.false_ne_true),
        if_neg (by rw [hnf]; exact Bool.false_ne_true)]
      exact ih rest (i + 1) (runStep t i p s)
        (fun q hq => hp q (List.mem_cons_of_mem p hq)) hnf
        (fun j hj hlt => hc j (by omega) (by simp; omega))

theorem runPassing_failed (t : TestModel) (it : Nat) (pre : List Step) :
    ∀ (i : Nat) (s : RunState),
      (∀ p ∈ pre, stepSkipped it p = true ∨ p.body = none) →
      s.failed = false →
      (runPassing t it i pre s).failed = false := by
  induction pre with
  | nil => intro i s _ hf; exact hf
  | cons p pre ih =>
    intro i s hp hf
    simp only [runPassing]
    by_cases hsk : stepSkipped it p = true
    · rw [if_pos hsk]
      exact ih (i + 1) s (fun q hq => hp q (List.mem_cons_of_mem p hq)) hf
    · have hb : p.body = none := by
        rcases hp p (List.mem_cons_self p pre) with h | h
        · exact absurd h hsk
        · exact h
      rw [if_neg hsk]
      exact ih (i + 1) (runStep t i p s) (fun q hq => hp q (List.mem_cons_of_mem p hq))
        (by rw [runStep_failed, hb, hf]; rfl)

theorem runPassing_filter (t : TestModel) (it : Nat) (pred : Event → Bool) (pre : List Step) :
    ∀ (i : Nat) (s : RunState),
      (∀ j st fl, i ≤ j → j < i + pre.length → (runStepEvents t j st fl).filter pred = []) →
      (runPassing t it i pre s).events.filter pred = s.events.filter pred := by
  induction pre with
  | nil => intro i s _; rfl
  | cons p pre ih =>
    intro i s h
    simp only [runPassing]
    split
    · exact ih (i + 1) s (fun j st' fl hj hlt => h j st' fl (by omega) (by simp; omega))
    · rw [ih (i + 1) (runStep t i p s)
        (fun j st' fl hj hlt => h j st' fl (by omega) (by simp; omega))]
      rw [runStep_events, List.filter_append, h i p s.failed (le_refl i) (by simp),
        List.append_nil]

/-- A tail consisting only of ONCE-skipped steps never reaches the race or
the cancellation check: the loop completes with the state untouched. -/
theorem runSteps_allSkipped (t : TestModel) (it : Nat) (cAt : Option Nat) (rest : List Step) :
    ∀ (i : Nat) (s : RunState), (∀ p ∈ rest, stepSkipped it p = true) →
      runSteps t it cAt i rest s = (s, LoopExit.completed) := by
  induction rest with
  | nil => intro i s _; rfl
  | cons p rest ih =>
    intro i s hall
    simp only [runSteps]
    rw [if_pos (hall p (List.mem_cons_self _ _))]
    exact ih (i + 1) s (fun q hq => hall q (List.mem_cons_of_mem _ hq))

/-- Once the cancellation token is resolved, the loop returns at the first
non-skipped step — but that step is still invoked: `Promise.race` calls
`runStep` eagerly, so its detached execution is recorded before the
cancelled return. -/
theorem runSteps_cancelFirst (t : TestModel) (it k : Nat) (preSkip : List Step) (st : Step)
    (post : List Step) :
    ∀ (i : Nat) (s : RunState), k ≤ i →
      (∀ p ∈ preSkip, stepSkipped it p = true) →
      stepSkipped it st = false →
      runSteps t it (some k) i (preSkip ++ st :: post) s
        = (runStep t (i + preSkip.length) st s, LoopExit.cancelled) := by
  induction preSkip with
  | nil =>
    intro i s hk _ hst
    simp only [List.nil_append, runSteps]
    rw [if_neg (by rw [hst]; exact Bool.false_ne_true),
      if_pos (by simp only [cancelRequestedAt, decide_eq_true_eq]; omega)]
    simp
  | cons q preSkip ih =>
    intro i s hk hall hst
    have hlen : i + (q :: preSkip).length = (i + 1) + preSkip.length := by simp; omega
    rw [hlen]
    simp only [List.cons_append, runSteps]
    rw [if_pos (hall q (List.mem_cons_self _ _))]
    exact ih (i + 1) s (by omega) (fun p hp => hall p (List.mem_cons_of_mem _ hp)) hst

/-- `pred`-filtered trace stays empty across the loop when the step at the
probed index `m` is ONCE-skipped (or lies left of the loop's window). -/
theorem runSteps_touches_skipped (t : TestModel) (it : Nat) (cAt : Option Nat) (m : Nat)
    (rest : List Step) :
    ∀ (i : Nat) (s : RunState),
      s.events.filter (touches m) = [] →
      (m < i ∨ ∀ st', rest[m - i]? = some st' → stepSkipped it st' = true) →
      (runSteps t it cAt i rest s).1.events.filter (touches m) = [] := by
  induction rest with
  | nil => intro i s hclean _; exact hclean
  | cons p rest ih =>
    intro i s hclean hcase
    simp only [runSteps]
    split
    · refine ih (i + 1) s hclean ?_
      rcases hcase with h | h
      · exact Or.inl (by omega)
      · by_cases hmi : m < i + 1
        · exact Or.inl hmi
        · refine Or.inr (fun st' hst' => h st' ?_)
          have : m - i = (m - (i + 1)) + 1 := by omega
          rw [this]
          simpa using hst'
    · have hmi : m ≠ i := by
        intro hEq
        rcases hcase with h | h
        · omega
        · subst hEq
          have := h p (by simp)
          rename_i hsk
          exact hsk this
      have hRSE : (runStepEvents t i p s.failed).filter (touches m) = [] :=
        runStepEvents_filter_touches_ne t i m p s.failed (Ne.symm hmi)
      split
      · rw [runStep_events, List.filter_append, hclean, hRSE]; rfl
      · split
        · rw [runStep_events, List.filter_append, hclean, hRSE]; rfl
        · refine ih (i + 1) (runStep t i p s) ?_ ?_
          · rw [runStep_events, List.filter_append, hclean, hRSE]; rfl
          · rcases hcase with h | h
            · exact Or.inl (by omega)
            · by_cases hmi1 : m < i + 1
              · exact Or.inl hmi1
              · refine Or.inr (fun st' hst' => h st' ?_)
                have : m - i = (m - (i + 1)) + 1 := by omega
                rw [this]
                simpa using hst'

/-- On the main path (driver configuration succeeded, data available)
`runWithCancellation` is the step loop from `mainStart` followed by the
`finally` detach, plus `after(run)` exactly on the completed exit. -/
theorem runWithCancellation_main (t : TestModel) (it : Nat) (cAt : Option Nat) :
    runWithCancellation t it true false cAt =
      (match runSteps t it cAt 0 t.steps (mainStart t) with
       | (s, LoopExit.completed) =>
         { events := s.events ++ [Event.detach, Event.afterRun], failed := s.failed, threw := false }
       | (s, LoopExit.cancelled) =>
         { events := s.events ++ [Event.detach], failed := s.failed, threw := false }
       | (s, LoopExit.stepFailed) =>
         { events := s.events ++ [Event.detach], failed := true, threw := true }) := rfl

/-- Along any loop segment started with `failed = false`, a delay event is
emitted exactly once per passed step when `stepDelay` is positive, and never
when `stepDelay ≤ 0`. -/
theorem runSteps_delay (t : TestModel) (it : Nat) (cAt : Option Nat) (rest : List Step) :
    ∀ (i : Nat) (s : RunState), s.failed = false →
      ∃ L, (runSteps t it cAt i rest s).1.events = s.events ++ L
        ∧ L.countP isDelayEv = (if t.stepDelay ≤ 0 then 0 else L.countP isPassedEv) := by
  induction rest with
  | nil =>
    intro i s _
    exact ⟨[], by simp [runSteps], by split <;> rfl⟩
  | cons p rest ih =>
    intro i s hf
    simp only [runSteps]
    split
    · exact ih (i + 1) s hf
    · split
      · refine ⟨runStepEvents t i p s.failed, runStep_events t i p s, ?_⟩
        rw [hf]
        cases hb : p.body with
        | some e => simp [runStepEvents, hb, isDelayEv, isPassedEv]
        | none =>
          by_cases hd : t.stepDelay ≤ 0 <;>
            simp [runStepEvents, hb, isDelayEv, isPassedEv, hd]
      · split
        · rename_i hfld
          have hbs : p.body.isSome = true := by
            have h1 := runStep_failed t i p s
            rw [hfld, hf] at h1
            simpa using h1.symm
          rcases Option.isSome_iff_exists.mp hbs with ⟨e, hb⟩
          refine ⟨runStepEvents t i p s.failed, runStep_events t i p s, ?_⟩
          simp only [runStepEvents, hb]
          simp [isDelayEv, isPassedEv]
        · rename_i hnf'
          have hnf : (runStep t i p s).failed = false := by
            revert hnf'
            cases (runStep t i p s).failed <;> simp
          have hb : p.body = none := by
            have h1 := runStep_failed t i p s
            rw [hnf, hf] at h1
            cases hbb : p.body with
            | none => rfl
            | some e => rw [hbb] at h1; simp at h1
          obtain ⟨L2, hev2, hcnt2⟩ := ih (i + 1) (runStep t i p s) hnf
          refine ⟨runStepEvents t i p s.failed ++ L2, ?_, ?_⟩
          · rw [hev2, runStep_events, List.append_assoc]
          · rw [List.countP_append, List.countP_append, hcnt2, hf]
            by_cases hd : t.stepDelay ≤ 0
            · simp [runStepEvents, hb, isDelayEv, isPassedEv, hd]
            · simp [runStepEvents, hb, isDelayEv, isPassedEv, hd]

/-- Each probed step index in the loop's window yields either no events at
all or exactly the fixed per-step hook sequence `hookShape`. -/
theorem runSteps_hookShape (t : TestModel) (it : Nat) (cAt : Option Nat) (rest : List Step) :
    ∀ (i : Nat) (s : RunState), s.failed = false →
      (∀ j, i ≤ j → s.events.filter (touches j) = []) →
      ∀ j st, i ≤ j → rest[j - i]? = some st →
        ((runSteps t it cAt i rest s).1.events.filter (touches j) = []
         ∨ (runSteps t it cAt i rest s).1.events.filter (touches j) = hookShape j st) := by
  induction rest with
  | nil => intro i s _ _ j st _ hget; simp at hget
  | cons p rest ih =>
    intro i s hf hclean j st hij hget
    simp only [runSteps]
    split
    · by_cases hji : j = i
      · subst hji
        exact Or.inl (runSteps_touches_skipped t it cAt j rest (j + 1) s
          (hclean j (le_refl j)) (Or.inl (by omega)))
      · refine ih (i + 1) s hf (fun j' hj' => hclean j' (by omega)) j st (by omega) ?_
        have hs : j - i = (j - (i + 1)) + 1 := by omega
        rw [hs] at hget
        simpa using hget
    · split
      · by_cases hji : j = i
        · subst hji
          have hstp : p = st := by simpa using hget
          subst hstp
          right
          rw [runStep_events, List.filter_append, hclean j (le_refl j),
            runStepEvents_filter_touches_self]
          rfl
        · left
          rw [runStep_events, List.filter_append, hclean j hij,
            runStepEvents_filter_touches_ne t i j p s.failed (fun h => hji (h.symm))]
          rfl
      · split
        · by_cases hji : j = i
          · subst hji
            have hstp : p = st := by simpa using hget
            subst hstp
            right
            rw [runStep_events, List.filter_append, hclean j (le_refl j),
              runStepEvents_filter_touches_self]
            rfl
          · left
            rw [runStep_events, List.filter_append, hclean j hij,
              runStepEvents_filter_touches_ne t i j p s.failed (fun h => hji (h.symm))]
            rfl
        · rename_i hnf'
          have hnf : (runStep t i p s).failed = false := by
            revert hnf'
            cases (runStep t i p s).failed <;> simp
          have hcleans2 : ∀ j', i + 1 ≤ j' →
              (runStep t i p s).events.filter (touches j') = [] := by
            intro j' hj'
            rw [runStep_events, List.filter_append, hclean j' (by omega),
              runStepEvents_filter_touches_ne t i j' p s.failed (by omega)]
            rfl
          by_cases hji : j = i
          · subst hji
            have hstp : p = st := by simpa using hget
            subst hstp
            right
            rw [runSteps_filter t it cAt (touches j) rest (j + 1) (runStep t j p s)
              (fun j' st' fl hj' _ => runStepEvents_filter_touches_ne t j' j st' fl (by omega))]
            rw [runStep_events, List.filter_append, hclean j (le_refl j),
              runStepEvents_filter_touches_self]
            rfl
          · refine ih (i + 1) (runStep t i p s) hnf hcleans2 j st (by omega) ?_
            have hs : j - i = (j - (i + 1)) + 1 := by omega
            rw [hs] at hget
            simpa using hget

theorem lookupHeap_mem (h : List (Nat × List (String × Nat))) (r : Nat)
    (v : List (String × Nat)) (hx : lookupHeap h r = some v) : (r, v) ∈ h := by
  induction h with
  | nil => simp [lookupHeap] at hx
  | cons p h ih =>
    rcases p with ⟨a, b⟩
    by_cases hra : a = r
    · subst hra
      simp [lookupHeap] at hx
      subst hx
      exact List.mem_cons_self _ _
    · simp only [lookupHeap, if_neg hra] at hx
      exact List.mem_cons_of_mem _ (ih hx)

theorem lookupHeap_none_of_lt (h : List (Nat × List (String × Nat))) (n : Nat)
    (hlt : ∀ p ∈ h, p.1 < n) : lookupHeap h n = none := by
  induction h with
  | nil => rfl
  | cons p h ih =>
    rcases p with ⟨a, b⟩
    have ha := hlt (a, b) (List.mem_cons_self _ _)
    simp only [lookupHeap, if_neg (by omega : ¬ a = n)]
    exact ih (fun q hq => hlt q (List.mem_cons_of_mem _ hq))

theorem doStepDelay_heap (t : TestModel) (s : RunState) : (doStepDelay t s).heap = s.heap := by
  unfold doStepDelay
  split <;> rfl

theorem doStepDelay_browserSettings (t : TestModel) (s : RunState) :
    (doStepDelay t s).browserSettings = s.browserSettings := by
  unfold doStepDelay
  split <;> rfl

theorem runStep_browserSettings (t : TestModel) (i : Nat) (st : Step) (s : RunState) :
    (runStep t i st s).browserSettings = s.nextId := by
  unfold runStep
  cases st.body with
  | some e => rfl
  | none => simp [doStepDelay_browserSettings]

theorem runStep_heap (t : TestModel) (i : Nat) (st : Step) (s : RunState) :
    ∃ mv, (runStep t i st s).heap =
      (s.nextId + 1, mv) :: (s.nextId, (lookupHeap s.heap s.browserSettings).getD []) :: s.heap := by
  unfold runStep
  cases st.body with
  | some e => exact ⟨_, rfl⟩
  | none =>
    refine ⟨shallowMerge ((lookupHeap ((s.nextId, (lookupHeap s.heap s.browserSettings).getD [])
      :: s.heap) s.settingsRef).getD []) st.stepOptions, ?_⟩
    simp [doStepDelay_heap]

/-- C10: when no browser session is active (`runningBrowser` is null), the
public accessors degrade to benign defaults: `currentURL` returns the empty
string, `fetchScreenshots` returns the empty list, and `takeScreenshot`
performs no driver action. -/
theorem c10_null_browser_accessors :
    currentURL none = "" ∧ fetchScreenshots none = [] ∧ takeScreenshot none = [] :=
  ⟨rfl, rfl, rfl⟩

/-- C4 counterexample: from the state in which the run has registered its
after-hook and nothing has been cancelled yet, two `cancel()` calls invoke
the registered after-hook twice — the claim says exactly once with further
calls having no effect — and neither call resolves the cancellation token. -/
theorem c4_counterexample :
    (cancel (cancel { failed := false, afterRunCalls := 0, tokenResolved := false })).afterRunCalls = 2
    ∧ (cancel (cancel { failed := false, afterRunCalls := 0, tokenResolved := false })).tokenResolved
        = false :=
  ⟨rfl, rfl⟩

/-- C4 amended: `cancel()` sets `failed` to true and invokes the run's
registered after-hook once per call — n calls give n invocations, so repeated
calls are not idempotent — and no call resolves the run's cancellation
token. -/
theorem c4_cancel_behaviour (m : CancelModel) (n : Nat) (h : 0 < n) :
    (cancel^[n] m).failed = true
    ∧ (cancel^[n] m).afterRunCalls = m.afterRunCalls + n
    ∧ (cancel^[n] m).tokenResolved = m.tokenResolved := by
  obtain ⟨k, rfl⟩ : ∃ k, n = k + 1 := ⟨n - 1, by omega⟩
  clear h
  induction k with
  | zero => exact ⟨rfl, rfl, rfl⟩
  | succ j ih =>
    rw [Function.iterate_succ_apply']
    refine ⟨rfl, ?_, ?_⟩
    · have h2 := ih.2.1
      show (cancel^[j + 1] m).afterRunCalls + 1 = m.afterRunCalls + (j + 1 + 1)
      omega
    · exact ih.2.2

/-- C4 witness: the amended behaviour at a concrete state and two calls. -/
theorem c4_cancel_behaviour_witness :
    (cancel^[2] { failed := false, afterRunCalls := 5, tokenResolved := false }).failed = true
    ∧ (cancel^[2] { failed := false, afterRunCalls := 5, tokenResolved := false }).afterRunCalls = 7
    ∧ (cancel^[2] { failed := false, afterRunCalls := 5, tokenResolved := false }).tokenResolved
        = false := by
  have h := c4_cancel_behaviour
    { failed := false, afterRunCalls := 5, tokenResolved := false } 2 (by decide)
  simpa using h

/-- C2 counterexample: with the data source exhausted, the run's trace is
exactly `[beforeRun, detach]` — in particular it contains no `after(run)`
call at all, contradicting the claim that `after` still fires exactly once
before the run returns. -/
theorem c2_counterexample :
    (runWithCancellation tABC 1 false false none).events = [Event.beforeRun, Event.detach]
    ∧ (runWithCancellation tABC 1 false false none).events.filter isAfterRunEv = [] := by
  exact ⟨rfl, rfl⟩

/-- C2 amended: when the data source yields no record for the iteration, the
run fails fatally before any step executes — no step-level hook fires — the
interceptor detach still runs, and the data-exhaustion error is re-raised to
the caller; the observer chain's `after(run)` hook is NOT invoked on this
path. -/
theorem c2_data_exhaustion (t : TestModel) (iteration : Nat) (cancelAt : Option Nat) :
    runWithCancellation t iteration false false cancelAt =
      { events := [Event.beforeRun, Event.detach], failed := true, threw := true } := rfl

/-- C3 counterexample: in the `[A, B, C]` scenario where `B` throws
`Error("assertion failed: x")`, the structured error reported through
`onStepError` has kind `empty`, not kind `assertion` as the claim states —
`liftToStructuredError` classifies by the error `name`, and a plain `Error`
is named `"Error"`. -/
theorem c3_counterexample :
    ((runWithCancellation tABC 1 true false none).events.countP
      (fun ev => match ev with
        | Event.onStepError _ _ se => se.kind == ErrorKind.assertion
        | _ => false) = 0)
    ∧ ((runWithCancellation tABC 1 true false none).events.countP
      (fun ev => match ev with
        | Event.onStepError _ _ se => se.kind == ErrorKind.empty
        | _ => false) = 1) := by
  exact ⟨by decide, by decide⟩

/-- C3 amended: in a run of steps `[A, B, C]` where `B` throws
`Error("assertion failed: x")`, the recorded calls are `beforeStep(A)`,
`onStepPassed(A)`, `afterStep(A)`, `beforeStep(B)`, `onStepError(B, e)`,
`afterStep(B)`; `C` is never invoked; `failed` is true.  The structured
error `e` has kind `empty` (unclassified), because classification is by the
error's `name` and a plain `Error` is named `"Error"`; an error whose name
starts with `"AssertionError"` is classified with kind `assertion` and its
original stack trace is copied onto the structured wrapper. -/
theorem c3_scenario :
    (runWithCancellation tABC 1 true false none).events =
      [Event.beforeRun,
       Event.beforeStep 0 "A", Event.stepBody 0 "A",
       Event.onStepPassed 0 "A", Event.afterStep 0 "A",
       Event.beforeStep 1 "B", Event.stepBody 1 "B",
       Event.onStepError 1 "B" (liftToStructuredError errPlain), Event.afterStep 1 "B",
       Event.detach]
    ∧ (runWithCancellation tABC 1 true false none).failed = true
    ∧ (liftToStructuredError errPlain).kind = ErrorKind.empty
    ∧ (liftToStructuredError errAssert).kind = ErrorKind.assertion
    ∧ (liftToStructuredError errAssert).stack = errAssert.stack := by
  refine ⟨by decide, by decide, by decide, by decide, by decide⟩

/-- C9: on every exit path of a run — success, step failure, cancellation,
an exception in the driver-configuration block, or data exhaustion — the
interceptor detach executes exactly once: the trace contains exactly one
`detach` event. -/
theorem c9_detach_once (t : TestModel) (it : Nat) (dataAvailable configThrows : Bool)
    (cAt : Option Nat) :
    (runWithCancellation t it dataAvailable configThrows cAt).events.filter isDetachEv
      = [Event.detach] := by
  cases configThrows with
  | true => rfl
  | false =>
    cases dataAvailable with
    | false => rfl
    | true =>
      rw [runWithCancellation_main]
      have hfilter := runSteps_filter t it cAt isDetachEv t.steps 0 (mainStart t)
        (fun j st fl _ _ => runStepEvents_filter_detach t j st fl)
      rcases hrs : runSteps t it cAt 0 t.steps (mainStart t) with ⟨s, ex⟩
      rw [hrs] at hfilter
      cases ex <;>
        simp_all [List.filter_append, mainStart, initState, isDetachEv]

/-- C1: in a run in which the step at index k throws from its body (data is
available, every earlier step passes or is ONCE-skipped, nothing cancels),
the final `failed` flag is true, the error is re-raised to the caller, and no
event about any step index beyond k appears in the trace — no step bodies and
no step-level observer hooks for steps k+1..N. -/
theorem c1_failure_short_circuits (t : TestModel) (it : Nat) (pre post : List Step)
    (st : Step) (e : JsError)
    (hsteps : t.steps = pre ++ st :: post)
    (hpre : ∀ p ∈ pre, stepSkipped it p = true ∨ p.body = none)
    (hsk : stepSkipped it st = false)
    (hb : st.body = some e) :
    (runWithCancellation t it true false none).failed = true
    ∧ (runWithCancellation t it true false none).threw = true
    ∧ (runWithCancellation t it true false none).events.filter (touchesGe (pre.length + 1))
        = [] := by
  rw [runWithCancellation_main, hsteps]
  rw [runSteps_passSegment t it none pre (st :: post) 0 (mainStart t) hpre rfl (fun j _ _ => rfl)]
  have hfP : (runPassing t it 0 pre (mainStart t)).failed = false :=
    runPassing_failed t it pre 0 (mainStart t) hpre rfl
  simp only [Nat.zero_add, runSteps]
  rw [if_neg (by rw [hsk]; exact Bool.false_ne_true),
    if_neg (by simp [cancelRequestedAt])]
  have hfld : (runStep t pre.length st (runPassing t it 0 pre (mainStart t))).failed = true := by
    rw [runStep_failed, hb, hfP]
    rfl
  rw [if_pos hfld]
  refine ⟨rfl, rfl, ?_⟩
  show ((runStep t pre.length st (runPassing t it 0 pre (mainStart t))).events
    ++ [Event.detach]).filter (touchesGe (pre.length + 1)) = []
  rw [List.filter_append, runStep_events, List.filter_append,
    runPassing_filter t it (touchesGe (pre.length + 1)) pre 0 (mainStart t)
      (fun j st' fl hj hlt => runStepEvents_filter_touchesGe t j (pre.length + 1) st' fl
        (by omega)),
    runStepEvents_filter_touchesGe t pre.length (pre.length + 1) st _ (by omega)]
  rfl

/-- C1 witness: the `[A, B, C]` run where B throws. -/
theorem c1_failure_short_circuits_witness :
    (runWithCancellation tABC 1 true false none).failed = true
    ∧ (runWithCancellation tABC 1 true false none).threw = true
    ∧ (runWithCancellation tABC 1 true false none).events.filter (touchesGe 2) = [] :=
  c1_failure_short_circuits tABC 1 [stA] [stC] stB errPlain rfl (by decide) (by decide) rfl

/-- C5 counterexample: across the first step of the `[A, B, C]` run the
active settings reference changes — restoration installs a fresh shallow
copy, not the reference that was active immediately before the step — even
though the copy is value-equal. -/
theorem c5_counterexample :
    (runStep tABC 0 stA (initState tABC)).browserSettings ≠ (initState tABC).browserSettings
    ∧ lookupHeap (runStep tABC 0 stA (initState tABC)).heap
        ((runStep tABC 0 stA (initState tABC)).browserSettings)
      = lookupHeap (initState tABC).heap ((initState tABC).browserSettings) := by
  constructor <;> decide

/-- C5 amended: for every step, pass or fail, the settings object active
after the step is a FRESH shallow copy of the object active immediately
before the step — value-equal but not reference-equal (the copy's reference
is allocated during the step, so it matches no pre-existing object); no
pre-existing settings object, in particular not the base `this.settings`
object, is mutated; the merged overlay is likewise a new object. -/
theorem c5_settings_restore (t : TestModel) (i : Nat) (st : Step) (s : RunState)
    (v : List (String × Nat))
    (hwf : ∀ p ∈ s.heap, p.1 < s.nextId)
    (hv : lookupHeap s.heap s.browserSettings = some v) :
    lookupHeap (runStep t i st s).heap (runStep t i st s).browserSettings = some v
    ∧ (∀ r w, lookupHeap s.heap r = some w → lookupHeap (runStep t i st s).heap r = some w)
    ∧ lookupHeap s.heap (runStep t i st s).browserSettings = none := by
  obtain ⟨mv, hheap⟩ := runStep_heap t i st s
  have hbs := runStep_browserSettings t i st s
  refine ⟨?_, ?_, ?_⟩
  · rw [hheap, hbs]
    simp only [lookupHeap, if_neg (by omega : ¬ s.nextId + 1 = s.nextId), if_pos rfl]
    rw [hv]
    rfl
  · intro r w hr
    have hmem := lookupHeap_mem s.heap r w hr
    have hrlt : r < s.nextId := hwf (r, w) hmem
    rw [hheap]
    simp only [lookupHeap, if_neg (by omega : ¬ s.nextId + 1 = r),
      if_neg (by omega : ¬ s.nextId = r)]
    exact hr
  · rw [hbs]
    exact lookupHeap_none_of_lt s.heap s.nextId hwf

/-- C5 witness: the amended property at the initial state of the `[A, B, C]`
run and its first step. -/
theorem c5_settings_restore_witness :
    lookupHeap (runStep tABC 0 stA (initState tABC)).heap
        (runStep tABC 0 stA (initState tABC)).browserSettings = some []
    ∧ (∀ r w, lookupHeap (initState tABC).heap r = some w →
        lookupHeap (runStep tABC 0 stA (initState tABC)).heap r = some w)
    ∧ lookupHeap (initState tABC).heap (runStep tABC 0 stA (initState tABC)).browserSettings
        = none :=
  c5_settings_restore tABC 0 stA (initState tABC) [] (by decide) (by decide)

/-- C6 counterexample, three concrete runs refuting the claim as stated.
First: in the `[A, B, C]` run with cancellation requested before step 1
(index 0) begins, step A is still invoked — its full hook sequence and body
are recorded — because `Promise.race` calls `runStep` eagerly; the claim
says steps k..N are never invoked.  Second: the test `[O]` (one ONCE step)
at iteration 2 with cancellation requested before step index 0 — the skipped
step never reaches the cancellation check, the loop completes, and
`after(run)` IS invoked.  Third: the test `[F, A]` with cancellation
requested before step index 1 — step F throws first, so the run throws
instead of returning normally. -/
theorem c6_counterexample :
    (runWithCancellation tABC 1 true false (some 0)).events.filter (touches 0)
        = hookShape 0 stA
    ∧ (runWithCancellation tOnce 2 true false (some 0)).events.filter isAfterRunEv
        = [Event.afterRun]
    ∧ (runWithCancellation tFA 1 true false (some 1)).threw = true := by
  refine ⟨by decide, by decide, by decide⟩

/-- C6 amended: suppose cancellation is requested before step k begins (the
token resolves in step k's race window) and every earlier step that executes
passes.  If every step from index k on is ONCE-skipped, the cancellation
check is never reached: the loop completes, the run returns without throwing
and `after(run)` fires once.  Otherwise the first non-skipped step at index
≥ k IS still invoked — `Promise.race` calls `runStep` eagerly, so that
step's hooks and body run detached even though the race settles on
cancellation — no step after it executes, the run returns normally without
throwing regardless of that step's outcome (the cancellation check precedes
the failed check), and `after(run)` is not invoked. -/
theorem c6_cancellation (t : TestModel) (it : Nat) (pre rest : List Step)
    (hsteps : t.steps = pre ++ rest)
    (hpre : ∀ p ∈ pre, stepSkipped it p = true ∨ p.body = none) :
    (rest.all (fun p => stepSkipped it p) = true →
      (runWithCancellation t it true false (some pre.length)).threw = false
      ∧ (runWithCancellation t it true false (some pre.length)).events.filter
          (touchesGe pre.length) = []
      ∧ (runWithCancellation t it true false (some pre.length)).events.filter isAfterRunEv
          = [Event.afterRun])
    ∧ (∀ preSkip st post, rest = preSkip ++ st :: post →
        (∀ p ∈ preSkip, stepSkipped it p = true) →
        stepSkipped it st = false →
        (runWithCancellation t it true false (some pre.length)).threw = false
        ∧ (runWithCancellation t it true false (some pre.length)).events.filter
            (touches (pre.length + preSkip.length))
            = hookShape (pre.length + preSkip.length) st
        ∧ (runWithCancellation t it true false (some pre.length)).events.filter
            (touchesGe (pre.length + preSkip.length + 1)) = []
        ∧ (runWithCancellation t it true false (some pre.length)).events.filter isAfterRunEv
            = []) := by
  rw [runWithCancellation_main, hsteps]
  rw [runSteps_passSegment t it (some pre.length) pre rest 0 (mainStart t) hpre rfl
    (fun j hj hlt => by
      simp only [cancelRequestedAt, decide_eq_false_iff_not]
      omega)]
  simp only [Nat.zero_add]
  have hge : ∀ n, pre.length ≤ n →
      (runPassing t it 0 pre (mainStart t)).events.filter (touchesGe n) = [] :=
    fun n hn =>
      runPassing_filter t it (touchesGe n) pre 0 (mainStart t)
        (fun j st' fl hj hlt => runStepEvents_filter_touchesGe t j n st' fl (by omega))
  have htn : ∀ n, pre.length ≤ n →
      (runPassing t it 0 pre (mainStart t)).events.filter (touches n) = [] :=
    fun n hn =>
      runPassing_filter t it (touches n) pre 0 (mainStart t)
        (fun j st' fl hj hlt =>
          runStepEvents_filter_touches_ne t j n st' fl (by omega))
  have haf : (runPassing t it 0 pre (mainStart t)).events.filter isAfterRunEv = [] :=
    runPassing_filter t it isAfterRunEv pre 0 (mainStart t)
      (fun j st' fl _ _ => runStepEvents_filter_afterRun t j st' fl)
  constructor
  · intro hall
    rw [runSteps_allSkipped t it (some pre.length) rest pre.length
      (runPassing t it 0 pre (mainStart t)) (fun p hp => List.all_eq_true.mp hall p hp)]
    refine ⟨rfl, ?_, ?_⟩
    · show ((runPassing t it 0 pre (mainStart t)).events
        ++ [Event.detach, Event.afterRun]).filter (touchesGe pre.length) = []
      rw [List.filter_append, hge pre.length (le_refl _)]
      rfl
    · show ((runPassing t it 0 pre (mainStart t)).events
        ++ [Event.detach, Event.afterRun]).filter isAfterRunEv = [Event.afterRun]
      rw [List.filter_append, haf]
      rfl
  · intro preSkip st post hrest hskips hstx
    rw [hrest]
    rw [runSteps_cancelFirst t it pre.length preSkip st post pre.length
      (runPassing t it 0 pre (mainStart t)) (le_refl _) hskips hstx]
    refine ⟨rfl, ?_, ?_, ?_⟩
    · show ((runStep t (pre.length + preSkip.length) st
          (runPassing t it 0 pre (mainStart t))).events
        ++ [Event.detach]).filter (touches (pre.length + preSkip.length))
        = hookShape (pre.length + preSkip.length) st
      rw [List.filter_append, runStep_events, List.filter_append,
        htn (pre.length + preSkip.length) (by omega),
        runStepEvents_filter_touches_self]
      simp [touches, evIndex]
    · show ((runStep t (pre.length + preSkip.length) st
          (runPassing t it 0 pre (mainStart t))).events
        ++ [Event.detach]).filter (touchesGe (pre.length + preSkip.length + 1)) = []
      rw [List.filter_append, runStep_events, List.filter_append,
        hge (pre.length + preSkip.length + 1) (by omega),
        runStepEvents_filter_touchesGe t (pre.length + preSkip.length)
          (pre.length + preSkip.length + 1) st _ (by omega)]
      rfl
    · show ((runStep t (pre.length + preSkip.length) st
          (runPassing t it 0 pre (mainStart t))).events
        ++ [Event.detach]).filter isAfterRunEv = []
      rw [List.filter_append, runStep_events, List.filter_append, haf,
        runStepEvents_filter_afterRun]
      rfl

/-- C6 witness: the all-skipped tail of `[A, O]` at iteration 2, and the
abandoned-but-invoked step B of `[A, B, C]` under cancellation before step
index 1. -/
theorem c6_cancellation_witness :
    (runWithCancellation tAOnce 2 true false (some 1)).events.filter isAfterRunEv
        = [Event.afterRun]
    ∧ (runWithCancellation tABC 1 true false (some 1)).threw = false
    ∧ (runWithCancellation tABC 1 true false (some 1)).events.filter (touches 1)
        = hookShape 1 stB
    ∧ (runWithCancellation tABC 1 true false (some 1)).events.filter (touchesGe 2) = []
    ∧ (runWithCancellation tABC 1 true false (some 1)).events.filter isAfterRunEv = [] := by
  have h1 := c6_cancellation tAOnce 2 [stA] [stOnce] rfl (by decide)
  have h2 := c6_cancellation tABC 1 [stA] [stB, stC] rfl (by decide)
  have h2x := h2.2 [] stB [stC] rfl (by decide) (by decide)
  exact ⟨(h1.1 (by decide)).2.2, h2x.1, h2x.2.1, h2x.2.2.1, h2x.2.2.2⟩

/-- C7 counterexample: in the test `[F, O]` at iteration 1, where F fails and
O is a ONCE step, O never executes — zero executions across iterations ≥ 1 —
refuting 'executes exactly once (on iteration 1) regardless of the outcomes
of neighboring steps'. -/
theorem c7_counterexample :
    (runWithCancellation tFOnce 1 true false none).events.filter (touches 1) = [] := by
  decide

/-- C7 amended: a ONCE-type step is skipped entirely for every iteration > 1
— no step body and no observer calls — regardless of data availability,
cancellation, or the outcomes of neighboring steps; on iteration 1 it
executes, with its full hook sequence occurring exactly once, provided the
run reaches it: data is available, nothing cancels, and every earlier step
that executes passes.  (When an earlier step fails first, the ONCE step does
not execute at all.) -/
theorem c7_once_step (t : TestModel) (pre post : List Step) (st : Step)
    (hsteps : t.steps = pre ++ st :: post)
    (honce : st.type = StepType.ONCE) :
    (∀ it dataAvailable configThrows cAt, 1 < it →
      (runWithCancellation t it dataAvailable configThrows cAt).events.filter
        (touches pre.length) = [])
    ∧ ((∀ p ∈ pre, stepSkipped 1 p = true ∨ p.body = none) →
      (runWithCancellation t 1 true false none).events.filter (touches pre.length)
        = hookShape pre.length st) := by
  constructor
  · intro it dataAvailable configThrows cAt hit
    cases configThrows with
    | true => rfl
    | false =>
      cases dataAvailable with
      | false => rfl
      | true =>
        rw [runWithCancellation_main]
        have hmain : (runSteps t it cAt 0 t.steps (mainStart t)).1.events.filter
            (touches pre.length) = [] := by
          apply runSteps_touches_skipped t it cAt pre.length t.steps 0 (mainStart t) rfl
          right
          intro st' hget
          rw [hsteps] at hget
          have hat : (pre ++ st :: post)[pre.length - 0]? = some st := by
            rw [Nat.sub_zero, List.getElem?_append_right (le_refl pre.length)]
            simp
          rw [hat] at hget
          cases hget
          simp [stepSkipped, honce, hit]
        rcases hrs : runSteps t it cAt 0 t.steps (mainStart t) with ⟨s, ex⟩
        rw [hrs] at hmain
        cases ex <;>
          simp_all [List.filter_append, touches, evIndex]
  · intro hpre
    rw [runWithCancellation_main, hsteps]
    rw [runSteps_passSegment t 1 none pre (st :: post) 0 (mainStart t) hpre rfl (fun j _ _ => rfl)]
    have hfP : (runPassing t 1 0 pre (mainStart t)).failed = false :=
      runPassing_failed t 1 pre 0 (mainStart t) hpre rfl
    have hsk1 : stepSkipped 1 st = false := by
      simp [stepSkipped]
    have hsPf : (runPassing t 1 0 pre (mainStart t)).events.filter (touches pre.length) = [] :=
      runPassing_filter t 1 (touches pre.length) pre 0 (mainStart t)
        (fun j st' fl hj hlt =>
          runStepEvents_filter_touches_ne t j pre.length st' fl (by omega))
    simp only [Nat.zero_add, runSteps]
    rw [if_neg (by rw [hsk1]; exact Bool.false_ne_true),
      if_neg (by simp [cancelRequestedAt])]
    by_cases hfld : (runStep t pre.length st (runPassing t 1 0 pre (mainStart t))).failed = true
    · rw [if_pos hfld]
      show ((runStep t pre.length st (runPassing t 1 0 pre (mainStart t))).events
        ++ [Event.detach]).filter (touches pre.length) = hookShape pre.length st
      rw [List.filter_append, runStep_events, List.filter_append, hsPf,
        runStepEvents_filter_touches_self]
      simp [touches, evIndex]
    · rw [if_neg hfld]
      have hs2f : ((runStep t pre.length st (runPassing t 1 0 pre (mainStart t))).events).filter
          (touches pre.length) = hookShape pre.length st := by
        rw [runStep_events, List.filter_append, hsPf, runStepEvents_filter_touches_self]
        rfl
      have hout := runSteps_filter t 1 none (touches pre.length) post (pre.length + 1)
        (runStep t pre.length st (runPassing t 1 0 pre (mainStart t)))
        (fun j st' fl hj _ =>
          runStepEvents_filter_touches_ne t j pre.length st' fl (by omega))
      rcases hrs : runSteps t 1 none (pre.length + 1) post
          (runStep t pre.length st (runPassing t 1 0 pre (mainStart t))) with ⟨s', ex⟩
      rw [hrs] at hout
      rw [hs2f] at hout
      cases ex <;>
        simp_all [List.filter_append, touches, evIndex]

/-- C7 witness: the test `[A, O]` at iterations 2 (skip, no events) and 1
(full hook sequence for O). -/
theorem c7_once_step_witness :
    (runWithCancellation tAOnce 2 true false none).events.filter (touches 1) = []
    ∧ (runWithCancellation tAOnce 1 true false none).events.filter (touches 1)
        = hookShape 1 stOnce := by
  have h := c7_once_step tAOnce [stA] [] stOnce rfl rfl
  exact ⟨h.1 2 true false none (by decide), h.2 (by decide)⟩

/-- C8: for every step of every run, the trace restricted to that step's
index is either empty (the step never executed) or exactly `beforeStep`, the
body, then exactly one of `onStepPassed` / `onStepError`, then `afterStep`;
and the inter-step delay fires exactly once per passed step when `stepDelay`
is positive and never otherwise — in particular never after a failing
step. -/
theorem c8_hook_order (t : TestModel) (it : Nat) (dataAvailable configThrows : Bool)
    (cAt : Option Nat) :
    (∀ i st, t.steps[i]? = some st →
      ((runWithCancellation t it dataAvailable configThrows cAt).events.filter (touches i) = []
       ∨ (runWithCancellation t it dataAvailable configThrows cAt).events.filter (touches i)
           = hookShape i st))
    ∧ (runWithCancellation t it dataAvailable configThrows cAt).events.countP isDelayEv
        = (if t.stepDelay ≤ 0 then 0
           else (runWithCancellation t it dataAvailable configThrows cAt).events.countP
             isPassedEv) := by
  cases configThrows with
  | true =>
    refine ⟨fun i st _ => Or.inl rfl, ?_⟩
    show (0 : Nat) = if t.stepDelay ≤ 0 then 0 else 0
    split <;> rfl
  | false =>
    cases dataAvailable with
    | false =>
      refine ⟨fun i st _ => Or.inl rfl, ?_⟩
      show (0 : Nat) = if t.stepDelay ≤ 0 then 0 else 0
      split <;> rfl
    | true =>
      rw [runWithCancellation_main]
      obtain ⟨L, hev, hcnt⟩ := runSteps_delay t it cAt t.steps 0 (mainStart t) rfl
      have hshape := runSteps_hookShape t it cAt t.steps 0 (mainStart t) rfl
        (fun j _ => rfl)
      rcases hrs : runSteps t it cAt 0 t.steps (mainStart t) with ⟨s, ex⟩
      rw [hrs] at hev hshape
      constructor
      · intro i st hget
        have hdis := hshape i st (Nat.zero_le i) (by simpa using hget)
        cases ex <;> rcases hdis with hd | hd <;>
          [left; right; left; right; left; right] <;>
          simp_all [List.filter_append, touches, evIndex]
      · cases ex <;>
        · show (s.events ++ _).countP isDelayEv
            = if t.stepDelay ≤ 0 then 0 else (s.events ++ _).countP isPassedEv
          rw [hev]
          simpa [List.countP_append, List.countP_cons, mainStart, initState,
            isDelayEv, isPassedEv] using hcnt

/-- C8 witness: the first step of the `[A, B, C]` run, and its delay count. -/
theorem c8_hook_order_witness :
    ((runWithCancellation tABC 1 true false none).events.filter (touches 0) = []
     ∨ (runWithCancellation tABC 1 true false none).events.filter (touches 0)
         = hookShape 0 stA)
    ∧ (runWithCancellation tABC 1 true false none).events.countP isDelayEv
        = (if tABC.stepDelay ≤ 0 then 0
           else (runWithCancellation tABC 1 true false none).events.countP isPassedEv) := by
  have h := c8_hook_order tABC 1 true false none
  exact ⟨h.1 0 stA rfl, h.2⟩

end Element
